import Mathlib

set_option linter.unusedVariables false

/-
Shallow embedding of the Ivy tool integration of this repository:
  src/serena/tools/ivy_tools.py
  src/solidlsp/language_servers/ivy_language_server.py
Pure text manipulation is embedded directly; the filesystem, PATH lookup,
shell execution and the language-server session are threaded through an
explicit environment, and session/shell interactions are recorded in an
effect trace.  Python character classes (str.isspace, regex \s, \d, \w)
are modelled at their ASCII core.
-/

/-- ASCII fragment of the whitespace class used by Python str.strip and regex \s. -/
def isPySpace (c : Char) : Bool :=
  c = ' ' || c = '\t' || c = '\n' || c = '\r' || c = '\x0b' || c = '\x0c'

/-- Opening curly brace character (written via its code point). -/
def lbraceChar : Char := Char.ofNat 123

/-- Closing curly brace character (written via its code point). -/
def rbraceChar : Char := Char.ofNat 125

/-- Python str.lstrip() restricted to ASCII whitespace. -/
def pyLstrip (s : String) : String := (s.data.dropWhile isPySpace).asString

/-- Python str.strip() restricted to ASCII whitespace. -/
def pyStrip (s : String) : String :=
  (((s.data.dropWhile isPySpace).reverse.dropWhile isPySpace).reverse).asString

/-- Python str.startswith, at the character-list level. -/
def strStartsWith (s pre : String) : Bool := pre.data.isPrefixOf s.data

/-- Python str.endswith, at the character-list level. -/
def strEndsWith (s suf : String) : Bool := suf.data.isSuffixOf s.data

/-- Helper for pySplitNL: accumulate the current segment (reversed). -/
def splitOnNLAux : List Char → List Char → List String
  | [], acc => [acc.reverse.asString]
  | c :: rest, acc =>
    if c = '\n' then acc.reverse.asString :: splitOnNLAux rest []
    else splitOnNLAux rest (c :: acc)

/-- Python source.split("\n"): every newline separates, empty segments kept. -/
def pySplitNL (s : String) : List String := splitOnNLAux s.data []

/-- Line-break characters recognised by Python str.splitlines (BMP set). -/
def isLineBreak (c : Char) : Bool :=
  c = '\n' || c = '\r' || c = '\x0b' || c = '\x0c' || c = '\x1c' || c = '\x1d' ||
  c = '\x1e' || c = '\x85' || c = ' ' || c = ' '

/-- Helper for pySplitlines: a trailing line terminator does not open a new
segment, and a carriage return followed by a newline counts once (the Boolean
records that the previous character was an unpaired carriage return). -/
def splitlinesAux : List Char → List Char → Bool → List String
  | [], acc, _ => if acc.isEmpty then [] else [acc.reverse.asString]
  | c :: rest, acc, afterCR =>
    if afterCR && c = '\n' then splitlinesAux rest acc false
    else if c = '\r' then acc.reverse.asString :: splitlinesAux rest [] true
    else if isLineBreak c then acc.reverse.asString :: splitlinesAux rest [] false
    else splitlinesAux rest (c :: acc) false

/-- Python output.splitlines(). -/
def pySplitlines (s : String) : List String := splitlinesAux s.data [] false

/-- Helper for pyReplace.  The fuel argument equals the length of the remaining
text, so the structural recursion mirrors the left-to-right non-overlapping
scan of Python str.replace. -/
def replaceAllAux (p0 : Char) (ps rep : List Char) : Nat → List Char → List Char
  | _, [] => []
  | 0, cs => cs
  | fuel + 1, c :: rest =>
    if (p0 :: ps).isPrefixOf (c :: rest) then
      rep ++ replaceAllAux p0 ps rep (fuel - ps.length) (rest.drop ps.length)
    else c :: replaceAllAux p0 ps rep fuel rest

/-- Python s.replace(pat, rep) for a non-empty pattern (all uses in the source
have non-empty patterns). -/
def pyReplace (s pat rep : String) : String :=
  match pat.data with
  | [] => s
  | p0 :: ps => (replaceAllAux p0 ps rep.data s.data.length s.data).asString

/-- Structured diagnostic record produced by _parse_ivy_check_output:
keys file, line, severity, message. -/
structure IvyDiag where
  file : String
  line : Nat
  severity : String
  message : String
  deriving Repr, DecidableEq

/-- Python int() on a string of decimal digits. -/
def digitsToNat (ds : List Char) : Nat :=
  ds.foldl (fun n c => 10 * n + (c.toNat - 48)) 0

/-- Regex alternation (error|warning) tried at the current position. -/
def matchSeverity (cs : List Char) : Option (String × List Char) :=
  if cs.take 5 = "error".data then some ("error", cs.drop 5)
  else if cs.take 7 = "warning".data then some ("warning", cs.drop 7)
  else none

/-- Match the regex tail (\d+):\s*(error|warning):\s*(.*) right after a
candidate colon ending the lazy group (.*?). -/
def matchFromColon (cs : List Char) : Option (Nat × String × String) :=
  let digits := cs.takeWhile Char.isDigit
  if digits.isEmpty then none
  else
    match cs.dropWhile Char.isDigit with
    | ':' :: r3 =>
      match matchSeverity (r3.dropWhile isPySpace) with
      | some (sev, r5) =>
        match r5 with
        | ':' :: r6 => some (digitsToNat digits, sev, (r6.dropWhile isPySpace).asString)
        | _ => none
      | none => none
    | _ => none

/-- Lazy scan for re.match(r"(.*?):(\d+):\s*(error|warning):\s*(.*)", line):
the first (shortest) prefix whose following colon lets the tail match wins.
The first argument accumulates the prefix (group 1) in reverse. -/
def scanDiagLine : List Char → List Char → Option IvyDiag
  | _, [] => none
  | pre, c :: cs =>
    if c = ':' then
      match matchFromColon cs with
      | some (n, sev, msg) => some ⟨pre.reverse.asString, n, sev, msg⟩
      | none => scanDiagLine (c :: pre) cs
    else scanDiagLine (c :: pre) cs

/-- One line of ivy_check output, parsed, or none when the line does not match. -/
def parseDiagLine (line : String) : Option IvyDiag := scanDiagLine [] line.data

/-- _parse_ivy_check_output: scan the output line by line, emitting one record
per matching line in encountered order. -/
def parse_ivy_check_output (output : String) : List IvyDiag :=
  (pySplitlines output).filterMap parseDiagLine

/-- sum(1 for d in diagnostics if d["severity"] == "error"). -/
def error_count_of (ds : List IvyDiag) : Nat :=
  (ds.filter (fun d => d.severity == "error")).length

/-- sum(1 for d in diagnostics if d["severity"] == "warning"). -/
def warning_count_of (ds : List IvyDiag) : Nat :=
  (ds.filter (fun d => d.severity == "warning")).length

/-- Concatenation of newline-terminated lines, used to state the line-by-line
behaviour of the output parser. -/
def concatTerminated (lines : List String) : String :=
  lines.foldr (fun l acc => l ++ "\n" ++ acc) ""

/-- os.path.join for the two-argument uses in the source (POSIX semantics). -/
def osPathJoin (a b : String) : String :=
  if strStartsWith b "/" then b
  else if a = "" || strEndsWith a "/" then a ++ b
  else a ++ "/" ++ b

/-- os.path.basename (POSIX): the component after the last slash. -/
def osBasename (p : String) : String :=
  (((p.data.reverse).takeWhile (fun c => c ≠ '/')).reverse).asString

/-- os.path.dirname (POSIX). -/
def osDirname (p : String) : String :=
  let head := (p.data.reverse.dropWhile (fun c => c ≠ '/')).reverse
  if head.isEmpty then ""
  else if head.all (fun c => c = '/') then head.asString
  else ((head.reverse.dropWhile (fun c => c = '/')).reverse).asString

/-- Python fname[:-4], used to strip a trailing ".ivy". -/
def stripIvySuffix (s : String) : String :=
  (s.data.take (s.data.length - 4)).asString

/-- Characters shlex.quote leaves unquoted: ASCII \w plus at-sign, percent,
plus, equals, colon, comma, dot, slash and hyphen. -/
def shlexSafeChar (c : Char) : Bool :=
  c.isAlphanum || c = '_' || c = '@' || c = '%' || c = '+' || c = '=' ||
  c = ':' || c = ',' || c = '.' || c = '/' || c = '-'

/-- shlex.quote. -/
def shlexQuote (s : String) : String :=
  if s = "" then "\x27\x27"
  else if s.data.all shlexSafeChar then s
  else "\x27" ++ pyReplace s "\x27" "\x27\"\x27\"\x27" ++ "\x27"

/-- pathlib.Path(p).as_uri() for an absolute path (percent-encoding of special
characters is not modelled; no claim depends on it). -/
def pathToUri (p : String) : String := "file://" ++ p

/-- Python dict lookup d.get(k) on an insertion-ordered association list. -/
def dictLookup {α β : Type} [BEq α] (l : List (α × β)) (k : α) : Option β :=
  (l.find? (fun p => p.1 == k)).map (fun p => p.2)

/-- Python dict assignment d[k] = v on an insertion-ordered association list:
replace in place when the key exists, append otherwise. -/
def dictSet {α β : Type} [BEq α] (l : List (α × β)) (k : α) (v : β) : List (α × β) :=
  if l.any (fun p => p.1 == k) then l.map (fun p => if p.1 == k then (k, v) else p)
  else l ++ [(k, v)]

/-- ASCII fragment of the regex class \w. -/
def wordChar (c : Char) : Bool := c.isAlphanum || c = '_'

/-- Try the regex include\s+(\w+) at the current position (which the caller
guarantees is a line start).  On success: module name, remaining text,
matched length. -/
def tryIncludeAt (cs : List Char) : Option (String × List Char × Nat) :=
  if cs.take 7 = "include".data then
    let r1 := cs.drop 7
    let ws := r1.takeWhile isPySpace
    if ws.isEmpty then none
    else
      let r2 := r1.dropWhile isPySpace
      let w := r2.takeWhile wordChar
      if w.isEmpty then none
      else some (w.asString, r2.dropWhile wordChar, 7 + ws.length + w.length)
  else none

/-- Scan for re.finditer(r"^include\s+(\w+)", source, re.MULTILINE): a match
may only start at the string start or right after a newline; after a match
scanning resumes past it.  Fuel equals the remaining length. -/
def findIncludesAux : Nat → List Char → Bool → Nat → List (String × Nat)
  | _, [], _, _ => []
  | 0, _, _, _ => []
  | fuel + 1, c :: rest, atStart, pos =>
    if atStart then
      match tryIncludeAt (c :: rest) with
      | some (name, rest', len) => (name, pos) :: findIncludesAux fuel rest' false (pos + len)
      | none => findIncludesAux fuel rest (c = '\n') (pos + 1)
    else findIncludesAux fuel rest (c = '\n') (pos + 1)

/-- All include-directive matches with their character offsets. -/
def findIncludesWithPos (source : String) : List (String × Nat) :=
  findIncludesAux source.data.length source.data true 0

/-- re.findall(r"^include\s+(\w+)", source, re.MULTILINE). -/
def findIncludeNames (source : String) : List String :=
  (findIncludesWithPos source).map (fun p => p.1)

/-- source[: match.start()].count("\n") + 1. -/
def lineOfPos (source : String) (pos : Nat) : Nat :=
  (source.data.take pos).count '\n' + 1

/-- Diagnostic record emitted by _check_structural_issues:
keys line, severity, message, source. -/
structure LintDiag where
  line : Nat
  severity : String
  message : String
  source : String
  deriving Repr, DecidableEq

/-- Message of the missing-header warning. -/
def headerMsg : String := "Missing \x27#lang ivy1.7\x27 header"

/-- Message of the stray-closing-brace error. -/
def closingBraceMsg : String := "Unmatched closing brace"

/-- Message of the end-of-file unclosed-brace error, carrying the count. -/
def openingBraceMsg (d : Nat) : String :=
  "Unmatched opening brace (" ++ toString d ++ " unclosed)"

/-- Per-line comment stripping of _check_structural_issues: a #lang line is
kept whole, any other line is truncated at its first #. -/
def codeOfLine (line : String) : String :=
  if strStartsWith (pyStrip line) "#lang" then line
  else (line.data.takeWhile (fun c => c ≠ '#')).asString

/-- Brace pass over one line of comment-stripped code.  The depth is a Nat:
in the source the int depth is reset to 0 immediately after going negative,
which coincides with saturating subtraction; a stray closer at depth 0 emits
the current line number.  Returns final depth and emitted error lines. -/
def braceScanLine (lineNo : Nat) (cs : List Char) (depth : Nat) : Nat × List Nat :=
  match cs with
  | [] => (depth, [])
  | c :: rest =>
    if c = lbraceChar then braceScanLine lineNo rest (depth + 1)
    else if c = rbraceChar then
      if depth = 0 then
        let (d, es) := braceScanLine lineNo rest 0
        (d, lineNo :: es)
      else braceScanLine lineNo rest (depth - 1)
    else braceScanLine lineNo rest depth

/-- Brace pass over all lines, numbering from the given 1-based index. -/
def braceScanLines : List String → Nat → Nat → Nat × List Nat
  | [], _, depth => (depth, [])
  | l :: ls, i, depth =>
    let p := braceScanLine i (codeOfLine l).data depth
    let q := braceScanLines ls (i + 1) p.1
    (q.1, p.2 ++ q.2)

/-- Header check of _check_structural_issues. -/
def headerDiagsOf (source : String) : List LintDiag :=
  if strStartsWith (pyLstrip source) "#lang" then []
  else [⟨1, "warning", headerMsg, "ivy-lint"⟩]

/-- Brace check of _check_structural_issues: per-scan stray-closer errors in
order, then one end-of-file error when openers stay unclosed. -/
def braceDiagsOf (lines : List String) : List LintDiag :=
  let p := braceScanLines lines 1 0
  (p.2.map (fun i => ⟨i, "error", closingBraceMsg, "ivy-lint"⟩)) ++
  (if p.1 > 0 then [⟨lines.length, "error", openingBraceMsg p.1, "ivy-lint"⟩] else [])

/-- Include check of _check_structural_issues: one warning per include whose
same-named file is absent from the directory of the checked file. -/
def includeDiagsOf (isFile : String → Bool) (source : String) (filepath : String) :
    List LintDiag :=
  (findIncludesWithPos source).filterMap (fun p =>
    let candidate := osPathJoin (osDirname filepath) (p.1 ++ ".ivy")
    if isFile candidate then none
    else some ⟨lineOfPos source p.2, "warning",
      "Unresolved include: " ++ p.1 ++ " (not found in same directory)", "ivy-lint"⟩)

/-- _check_structural_issues: header check, then brace pass, then include
check, with os.path.isfile abstracted as a predicate. -/
def check_structural_issues (isFile : String → Bool) (source : String) (filepath : String) :
    List LintDiag :=
  headerDiagsOf source ++ braceDiagsOf (pySplitNL source) ++ includeDiagsOf isFile source filepath

/-- Specification-side notion: scanning from the given depth never meets a
closing brace with no matching opener. -/
def braceScanOk (depth : Nat) : List Char → Bool
  | [] => true
  | c :: rest =>
    if c = lbraceChar then braceScanOk (depth + 1) rest
    else if c = rbraceChar then decide (depth ≠ 0) && braceScanOk (depth - 1) rest
    else braceScanOk depth rest

/-- Specification-side notion: the nesting depth after scanning (saturating at
zero exactly as the reset in the source does). -/
def braceFinalDepth (depth : Nat) : List Char → Nat
  | [] => depth
  | c :: rest =>
    if c = lbraceChar then braceFinalDepth (depth + 1) rest
    else if c = rbraceChar then braceFinalDepth (depth - 1) rest
    else braceFinalDepth depth rest

/-- The comment-stripped code of all lines, concatenated in order. -/
def flatCodeOf (lines : List String) : List Char :=
  lines.foldr (fun l acc => (codeOfLine l).data ++ acc) []

/-- Result of serena.util.shell.execute_shell_command as used by the tools:
stdout, optional stderr, return code. -/
structure ShellResult where
  stdout : String
  stderr : Option String
  return_code : Int
  deriving Repr, DecidableEq

/-- Shape of a language-server custom-request response as read by the tools
(dict .get accesses with defaults; absent keys are none). -/
structure LspResp where
  success : Option Bool
  output : Option (List String)
  diagnosticCount : Option Nat
  duration : Option Nat
  isolate : Option String
  deriving Repr, DecidableEq

/-- A custom request sent to the language server: method name plus the
parameters the tools put in the params object. -/
structure CustomReq where
  method : String
  uri : Option String
  isolate : Option String
  target : Option String
  testFile : Option String
  deriving Repr, DecidableEq

/-- Behaviour of an available Ivy language-server session: send_custom_request
either returns a response or raises (modelled as none); stored is the
value-level content of its diagnostics cache (records kept opaque). -/
structure SessionBehavior where
  customRequest : CustomReq → Option LspResp
  stored : List (String × List String)

/-- Environment a tool invocation runs in: os.path.isfile, shutil.which, the
resolved Ivy language server (none when unavailable), execute_shell_command
keyed by the command string, and the measured wall-clock duration. -/
structure ToolEnv where
  isFile : String → Bool
  which : String → Option String
  session : Option SessionBehavior
  shell : String → ShellResult
  elapsed : Nat

/-- Externally visible actions of one tool invocation, in order. -/
inductive Effect where
  | customRequest (req : CustomReq)
  | shellExec (command : String)
  deriving Repr, DecidableEq

/-- Exceptions raised by the tools' validation and environment checks. -/
inductive ToolError where
  | valueError (msg : String)
  | fileNotFoundError (msg : String)
  deriving Repr, DecidableEq

/-- _validate_ivy_path: wrong extension raises ValueError, missing file raises
FileNotFoundError, otherwise the absolute path is returned. -/
def validate_ivy_path (isFile : String → Bool) (project_root relative_path : String) :
    Except ToolError String :=
  if !(strEndsWith relative_path ".ivy") then
    .error (.valueError ("Expected an .ivy file, got: " ++ relative_path))
  else
    let abs_path := osPathJoin project_root relative_path
    if !(isFile abs_path) then
      .error (.fileNotFoundError ("Ivy file not found: " ++ relative_path))
    else .ok abs_path

/-- _require_ivy_tool: FileNotFoundError when the CLI tool is not on PATH. -/
def require_ivy_tool (which : String → Option String) (tool_name : String) :
    Except ToolError Unit :=
  match which tool_name with
  | some _ => .ok ()
  | none => .error (.fileNotFoundError
      ("\x27" ++ tool_name ++ "\x27 is not installed or not on PATH.\nInstall the Ivy toolchain to use this tool."))

/-- Result payload of IvyCheckTool (keys of the JSON object; keys absent on a
path are none there). -/
structure CheckPayload where
  success : Bool
  diagnostics : List IvyDiag
  diagnostic_count : Nat
  error_count : Nat
  warning_count : Nat
  raw_output : String
  return_code : Option Int
  duration_seconds : Nat
  isolate : Option String
  via : String
  parse_warning : Option String
  deriving Repr, DecidableEq

/-- Parse-gap marker attached by IvyCheckTool._apply_via_cli. -/
def parseWarningMsg : String :=
  "ivy_check exited with non-zero status but no structured diagnostics could be parsed. Check raw_output for details."

/-- Command line composed by IvyCheckTool._apply_via_cli. -/
def ivyCheckCommand (relative_path : String) (isolate : Option String) : String :=
  match isolate with
  | some i => "ivy_check isolate=" ++ shlexQuote i ++ " " ++ shlexQuote relative_path
  | none => "ivy_check " ++ shlexQuote relative_path

/-- IvyCheckTool._apply_via_lsp: normalise the ivy/verify response (time values
are modelled as naturals; rounding to two decimals is dropped with them). -/
def ivyCheck_apply_via_lsp (resp : LspResp) : CheckPayload :=
  let output_lines := resp.output.getD []
  let raw_output := String.intercalate "\n" output_lines
  let diagnostics := parse_ivy_check_output raw_output
  { success := resp.success.getD false
    diagnostics := diagnostics
    diagnostic_count := resp.diagnosticCount.getD diagnostics.length
    error_count := error_count_of diagnostics
    warning_count := warning_count_of diagnostics
    raw_output := pyStrip raw_output
    return_code := none
    duration_seconds := resp.duration.getD 0
    isolate := resp.isolate
    via := "lsp"
    parse_warning := none }

/-- IvyCheckTool._apply_via_cli: require ivy_check, run it, parse the combined
output, and flag a parse gap on non-zero exit with zero diagnostics. -/
def ivyCheck_apply_via_cli (env : ToolEnv) (relative_path : String) (isolate : Option String) :
    Except ToolError CheckPayload × List Effect :=
  match require_ivy_tool env.which "ivy_check" with
  | .error e => (.error e, [])
  | .ok _ =>
    let command := ivyCheckCommand relative_path isolate
    let result := env.shell command
    let raw_output := result.stdout ++ "\n" ++ result.stderr.getD ""
    let diagnostics := parse_ivy_check_output raw_output
    (.ok
      { success := result.return_code == 0
        diagnostics := diagnostics
        diagnostic_count := diagnostics.length
        error_count := error_count_of diagnostics
        warning_count := warning_count_of diagnostics
        raw_output := pyStrip raw_output
        return_code := some result.return_code
        duration_seconds := env.elapsed
        isolate := none
        via := "cli"
        parse_warning :=
          if result.return_code != 0 && diagnostics.isEmpty then some parseWarningMsg
          else none },
      [.shellExec command])

/-- IvyCheckTool.apply: validate the path first; with a session, try ivy/verify
and fall back to the CLI on any exception (modelled as customRequest = none);
without a session, go straight to the CLI. -/
def ivyCheck_apply (env : ToolEnv) (project_root relative_path : String) (isolate : Option String) :
    Except ToolError CheckPayload × List Effect :=
  match validate_ivy_path env.isFile project_root relative_path with
  | .error e => (.error e, [])
  | .ok _ =>
    match env.session with
    | some sess =>
      let req : CustomReq :=
        { method := "ivy/verify", uri := some (pathToUri (osPathJoin project_root relative_path))
          isolate := isolate, target := none, testFile := none }
      match sess.customRequest req with
      | some resp => (.ok (ivyCheck_apply_via_lsp resp), [.customRequest req])
      | none =>
        let (r, t) := ivyCheck_apply_via_cli env relative_path isolate
        (r, .customRequest req :: t)
    | none => ivyCheck_apply_via_cli env relative_path isolate

/-- Result of IvyCompileTool and IvyModelInfoTool: the LSP response dict with
via = "lsp" added, or on the CLI path the serialized shell result
(result.model_dump_json()) as is. -/
inductive PassOutcome where
  | viaLsp (resp : LspResp)
  | viaCli (r : ShellResult)
  deriving Repr, DecidableEq

/-- Neither result shape of IvyCompileTool carries a parse_warning key: the
LSP response is returned with only via added, and the CLI path serializes the
raw shell result (stdout, stderr, return code) without parsing diagnostics. -/
def compileParseWarningField : PassOutcome → Option String
  | .viaLsp _ => none
  | .viaCli _ => none

/-- Command line composed by IvyCompileTool's CLI fallback. -/
def ivycCommand (relative_path target : String) (isolate : Option String) : String :=
  match isolate with
  | some i => "ivyc target=" ++ shlexQuote target ++ " isolate=" ++ shlexQuote i ++ " " ++ shlexQuote relative_path
  | none => "ivyc target=" ++ shlexQuote target ++ " " ++ shlexQuote relative_path

/-- CLI fallback of IvyCompileTool.apply. -/
def ivyCompile_via_cli (env : ToolEnv) (relative_path target : String) (isolate : Option String) :
    Except ToolError PassOutcome × List Effect :=
  match require_ivy_tool env.which "ivyc" with
  | .error e => (.error e, [])
  | .ok _ =>
    let command := ivycCommand relative_path target isolate
    (.ok (.viaCli (env.shell command)), [.shellExec command])

/-- IvyCompileTool.apply. -/
def ivyCompile_apply (env : ToolEnv) (project_root relative_path target : String)
    (isolate : Option String) : Except ToolError PassOutcome × List Effect :=
  match validate_ivy_path env.isFile project_root relative_path with
  | .error e => (.error e, [])
  | .ok _ =>
    match env.session with
    | some sess =>
      let req : CustomReq :=
        { method := "ivy/compile", uri := some (pathToUri (osPathJoin project_root relative_path))
          isolate := none, target := some target, testFile := none }
      match sess.customRequest req with
      | some resp => (.ok (.viaLsp resp), [.customRequest req])
      | none =>
        let (r, t) := ivyCompile_via_cli env relative_path target isolate
        (r, .customRequest req :: t)
    | none => ivyCompile_via_cli env relative_path target isolate

/-- Command line composed by IvyModelInfoTool's CLI fallback. -/
def ivyShowCommand (relative_path : String) (isolate : Option String) : String :=
  match isolate with
  | some i => "ivy_show isolate=" ++ shlexQuote i ++ " " ++ shlexQuote relative_path
  | none => "ivy_show " ++ shlexQuote relative_path

/-- CLI fallback of IvyModelInfoTool.apply. -/
def ivyModelInfo_via_cli (env : ToolEnv) (relative_path : String) (isolate : Option String) :
    Except ToolError PassOutcome × List Effect :=
  match require_ivy_tool env.which "ivy_show" with
  | .error e => (.error e, [])
  | .ok _ =>
    let command := ivyShowCommand relative_path isolate
    (.ok (.viaCli (env.shell command)), [.shellExec command])

/-- IvyModelInfoTool.apply. -/
def ivyModelInfo_apply (env : ToolEnv) (project_root relative_path : String)
    (isolate : Option String) : Except ToolError PassOutcome × List Effect :=
  match validate_ivy_path env.isFile project_root relative_path with
  | .error e => (.error e, [])
  | .ok _ =>
    match env.session with
    | some sess =>
      let req : CustomReq :=
        { method := "ivy/showModel", uri := some (pathToUri (osPathJoin project_root relative_path))
          isolate := isolate, target := none, testFile := none }
      match sess.customRequest req with
      | some resp => (.ok (.viaLsp resp), [.customRequest req])
      | none =>
        let (r, t) := ivyModelInfo_via_cli env relative_path isolate
        (r, .customRequest req :: t)
    | none => ivyModelInfo_via_cli env relative_path isolate

/-- Value-level view of IvyLanguageServer.get_stored_diagnostics. -/
def lsGetStoredDiagnostics (sess : SessionBehavior) (uri : String) : List String :=
  (dictLookup sess.stored uri).getD []

/-- Result payload of IvyDiagnosticsTool: the per-file shape or the all-files
summary, each with server_active and the optional featureStatus. -/
inductive DiagPayload where
  | forFile (file : String) (diagnostics : List String) (diagnostic_count : Nat)
      (server_active : Bool) (featureStatus : Option LspResp)
  | forAll (files : List (String × List String × Nat)) (total_files : Nat)
      (server_active : Bool) (featureStatus : Option LspResp)
  deriving Repr, DecidableEq

/-- IvyDiagnosticsTool.apply: consult the cached diagnostics without running
ivy_check; a failed featureStatus request leaves featureStatus unset. -/
def ivyDiagnostics_apply (env : ToolEnv) (project_root : String) (relative_path : Option String) :
    DiagPayload × List Effect :=
  let featureReq : CustomReq :=
    { method := "ivy/featureStatus", uri := none, isolate := none, target := none, testFile := none }
  match env.session with
  | some sess =>
    let feature_status := sess.customRequest featureReq
    match relative_path with
    | some rel =>
      let uri := pathToUri (osPathJoin project_root rel)
      let diags := lsGetStoredDiagnostics sess uri
      (.forFile rel diags diags.length true feature_status, [.customRequest featureReq])
    | none =>
      let summary := sess.stored.map (fun p => (pyReplace p.1 "file://" "", p.2, p.2.length))
      (.forAll summary summary.length true feature_status, [.customRequest featureReq])
  | none =>
    match relative_path with
    | some rel => (.forFile rel [] 0 false none, [])
    | none => (.forAll [] 0 false none, [])

/-- Payload of a textDocument/publishDiagnostics notification as inspected by
the handler: a non-dict value, or a dict with optional uri and diagnostics
keys (diagnostic entries kept opaque). -/
inductive PublishParams where
  | nonDict
  | payload (uri : Option String) (diagnostics : Option (List String))
  deriving Repr, DecidableEq

/-- store_diagnostics (the publishDiagnostics handler): drop non-dict payloads
and missing/empty uris; otherwise wholesale-replace the entry for that uri. -/
def store_diagnostics (params : PublishParams) (store : List (String × List String)) :
    List (String × List String) :=
  match params with
  | .nonDict => store
  | .payload uriOpt diagsOpt =>
    let uri := uriOpt.getD ""
    if uri = "" then store
    else dictSet store uri (diagsOpt.getD [])

/-- Error raised by _start_server when textDocumentSync is absent. -/
def capErrorMsg : String :=
  "ivy_lsp did not report textDocumentSync capability. Check that ivy_lsp is correctly installed and up to date."

/-- Optional capabilities whose absence is only logged. -/
def optionalCapabilityNames : List String :=
  ["completionProvider", "definitionProvider", "referencesProvider",
   "documentSymbolProvider", "workspaceSymbolProvider", "hoverProvider"]

/-- IvyLanguageServer._start_server, reduced to its capability validation: the
argument is the capabilities object of the handshake response (none when the
key is absent, getD mirrors .get with default).  textDocumentSync is
mandatory; the optional capabilities only produce log lines. -/
def start_server (init_capabilities : Option (List String)) : Except String (List String) :=
  let capabilities := init_capabilities.getD []
  if "textDocumentSync" ∈ capabilities then
    .ok (optionalCapabilityNames.map (fun c =>
      if c ∈ capabilities then "ivy_lsp supports " ++ c else "ivy_lsp does not report " ++ c))
  else .error capErrorMsg

/-- A usable session exists exactly when _start_server returned normally. -/
def session_after_start (init_capabilities : Option (List String)) : Option Unit :=
  match start_server init_capabilities with
  | .ok _ => some ()
  | .error _ => none

/-
Heap model for the diagnostics accessors.  Python list objects and the
mutable diagnostic dicts they contain live at addresses; list(xs) allocates a
fresh list object sharing the element addresses (a shallow copy), which is
exactly what get_stored_diagnostics / get_all_stored_diagnostics do.
-/

/-- Heap of list objects (element-address sequences) and diagnostic-record
objects (content kept opaque as a string); next is the next fresh address. -/
structure DiagHeap where
  lists : List (Nat × List Nat)
  recs : List (Nat × String)
  next : Nat
  deriving Repr, DecidableEq

/-- Dereference a list object. -/
def heapListGet (h : DiagHeap) (a : Nat) : List Nat := (dictLookup h.lists a).getD []

/-- Dereference a diagnostic-record object. -/
def heapRecGet (h : DiagHeap) (a : Nat) : String := (dictLookup h.recs a).getD ""

/-- Allocate a fresh list object with the given element addresses. -/
def heapAllocList (h : DiagHeap) (elems : List Nat) : Nat × DiagHeap :=
  (h.next, ⟨(h.next, elems) :: h.lists, h.recs, h.next + 1⟩)

/-- In-place mutation of a list object (append, item assignment, clear...). -/
def heapSetList (h : DiagHeap) (a : Nat) (elems : List Nat) : DiagHeap :=
  ⟨dictSet h.lists a elems, h.recs, h.next⟩

/-- In-place mutation of a diagnostic-record object. -/
def heapSetRec (h : DiagHeap) (a : Nat) (v : String) : DiagHeap :=
  ⟨h.lists, dictSet h.recs a v, h.next⟩

/-- get_stored_diagnostics: list(self._diagnostics_store.get(uri, [])) — a
fresh list object holding the same element addresses. -/
def get_stored_diagnostics (store : List (String × Nat)) (h : DiagHeap) (uri : String) :
    Nat × DiagHeap :=
  heapAllocList h (((dictLookup store uri).map (heapListGet h)).getD [])

/-- get_all_stored_diagnostics: a fresh dict mapping each uri to a fresh
shallow copy of its list, allocated in insertion order. -/
def get_all_stored_diagnostics (store : List (String × Nat)) (h : DiagHeap) :
    List (String × Nat) × DiagHeap :=
  match store with
  | [] => ([], h)
  | (uri, a) :: rest =>
    let p := heapAllocList h (heapListGet h a)
    let q := get_all_stored_diagnostics rest p.2
    ((uri, p.1) :: q.1, q.2)

/-- The diagnostics a subsequent read of the cache observes for a uri:
the fully dereferenced content of the stored list object. -/
def cacheView (store : List (String × Nat)) (h : DiagHeap) (uri : String) : List String :=
  match dictLookup store uri with
  | some a => (heapListGet h a).map (heapRecGet h)
  | none => []

/-- Well-formedness: every address the cache holds was allocated. -/
def heapWF (store : List (String × Nat)) (h : DiagHeap) : Prop :=
  ∀ p ∈ store, p.2 < h.next

/-
Include-graph machinery of IvyIncludeGraphTool._apply_via_filesystem.  The
os.walk over the project is abstracted as the ordered list of .ivy files it
encounters (path relative to the root, and the file content or the OSError
message when reading fails).
-/

/-- One .ivy file met by the bounded filesystem walk. -/
structure WalkEntry where
  relPath : String
  content : Except String String
  deriving Repr

/-- Hard cap on the number of scanned files. -/
def MAX_IVY_FILES : Nat := 5000

/-- Build graph (rel path to include names), file_by_basename and
skipped_files from the walked entries, stopping at the cap. -/
def buildIncludeGraph : List WalkEntry → List (String × List String) →
    List (String × String) → List (String × String) →
    List (String × List String) × List (String × String) × List (String × String)
  | [], g, bm, sk => (g, bm, sk)
  | e :: rest, g, bm, sk =>
    if g.length ≥ MAX_IVY_FILES then (g, bm, sk)
    else
      let basename := stripIvySuffix (osBasename e.relPath)
      let bm2 := dictSet bm basename e.relPath
      match e.content with
      | .error msg => buildIncludeGraph rest g bm2 (sk ++ [(e.relPath, msg)])
      | .ok source => buildIncludeGraph rest (g ++ [(e.relPath, findIncludeNames source)]) bm2 sk

/-- Concatenation of a list of lists of module names. -/
def flattenAll (l : List (List String)) : List String := l.foldr (fun a b => a ++ b) []

/-- Every module name any graph entry can ever push on the worklist. -/
def graphMods (graph : List (String × List String)) : List String :=
  flattenAll (graph.map (fun p => p.2))

/-- Upper bound on the number of loop iterations of the transitive-closure
worklist: distinct not-yet-visited candidate modules, times one more than the
total push budget, plus the current worklist length. -/
def transFuel (graph : List (String × List String)) (visited stack : List String) : Nat :=
  ((stack ++ graphMods graph).toFinset \ visited.toFinset).card * ((graphMods graph).length + 1)
    + stack.length

/-- The transitive-closure worklist loop.  The Python stack pops from the end
and extends at the end; the list here is kept reversed, so the head is the
top and an extension reverses the pushed block.  A module already in visited
(the transitive set) is never re-expanded.  The fuel only bounds iterations;
transFuel is always enough (proved below). -/
def transLoopF (graph : List (String × List String)) (bm : List (String × String)) :
    Nat → List String → List String → List String
  | _, visited, [] => visited
  | 0, visited, _ => visited
  | fuel + 1, visited, mod :: rest =>
    if mod ∈ visited then transLoopF graph bm fuel visited rest
    else
      match dictLookup bm mod with
      | some mod_path =>
        if mod_path ≠ "" then
          match dictLookup graph mod_path with
          | some incs => transLoopF graph bm fuel (mod :: visited) (incs.reverse ++ rest)
          | none => transLoopF graph bm fuel (mod :: visited) rest
        else transLoopF graph bm fuel (mod :: visited) rest
      | none => transLoopF graph bm fuel (mod :: visited) rest

/-- Code-point lexicographic order on character lists (Python string order). -/
def charListLt : List Char → List Char → Bool
  | [], [] => false
  | [], _ :: _ => true
  | _ :: _, [] => false
  | a :: as, b :: bs => if a < b then true else if b < a then false else charListLt as bs

/-- Python string comparison used by sorted(). -/
def strLtSort (a b : String) : Bool := charListLt a.data b.data

/-- Insert into an ascending list. -/
def insertSortedStr (x : String) : List String → List String
  | [] => [x]
  | y :: ys => if strLtSort y x then y :: insertSortedStr x ys else x :: y :: ys

/-- Python sorted() on strings. -/
def sortStrings : List String → List String
  | [] => []
  | x :: xs => insertSortedStr x (sortStrings xs)

/-- sorted transitive closure of the include relation starting from the direct
includes (list(includes) popped from the end = reversed head-pop list). -/
def transitiveIncludes (graph : List (String × List String)) (bm : List (String × String))
    (includes : List String) : List String :=
  sortStrings (transLoopF graph bm (transFuel graph [] includes.reverse) [] includes.reverse)

/-- One entry of the per-file includes list: module plus resolved path, which
stays null when no same-named file was scanned. -/
structure IncludeEntry where
  module : String
  resolved_path : Option String
  deriving Repr, DecidableEq

/-- Result payload of the filesystem include-graph walk. -/
inductive IncludeGraphPayload where
  | forFile (file : String) (includes : List IncludeEntry) (included_by : List String)
      (transitive_includes : List String) (transitive_include_count : Nat)
      (skipped_files : List (String × String)) (via : String)
  | forAll (files : List (String × List String × Nat)) (total_files : Nat)
      (total_include_edges : Nat) (skipped_files : List (String × String)) (via : String)
  deriving Repr, DecidableEq

/-- IvyIncludeGraphTool._apply_via_filesystem. -/
def ivyIncludeGraph_via_filesystem (entries : List WalkEntry) (relative_path : Option String) :
    IncludeGraphPayload :=
  let (graph, bm, skipped) := buildIncludeGraph entries [] [] []
  match relative_path with
  | some rel =>
    let includes := (dictLookup graph rel).getD []
    let resolved_includes := includes.map (fun inc => IncludeEntry.mk inc (dictLookup bm inc))
    let target0 := osBasename rel
    let target_basename := if strEndsWith target0 ".ivy" then stripIvySuffix target0 else target0
    let included_by := (graph.filter (fun p => target_basename ∈ p.2)).map (fun p => p.1)
    let transitive := transitiveIncludes graph bm includes
    .forFile rel resolved_includes included_by transitive transitive.length skipped "filesystem"
  | none =>
    .forAll (graph.map (fun p => (p.1, p.2, p.2.length))) graph.length
      (flattenAll (graph.map (fun p => p.2))).length skipped "filesystem"

/-- Session whose custom requests always raise. -/
def cexSession : SessionBehavior := { customRequest := fun _ => none, stored := [] }

/-- Concrete environment: one project file /proj/model.ivy, the three Ivy CLI
tools on PATH, a raising session, and a failing external run. -/
def cexEnv : ToolEnv :=
  { isFile := fun p => p == "/proj/model.ivy"
    which := fun t => if t == "ivy_check" || t == "ivyc" || t == "ivy_show"
      then some ("/usr/bin/" ++ t) else none
    session := some cexSession
    shell := fun _ => { stdout := "boom", stderr := some "", return_code := 1 }
    elapsed := 0 }

/-- Same environment without a language server. -/
def cexEnvNoLs : ToolEnv := { cexEnv with session := none }

/-- Concrete diagnostics cache: one uri whose list object (address 0) holds
one diagnostic record (address 1). -/
def cexStore : List (String × Nat) := [("file:///proj/model.ivy", 0)]

/-- Concrete heap backing cexStore. -/
def cexHeap : DiagHeap :=
  { lists := [(0, [1])], recs := [(1, "severity=error message=bad")], next := 2 }

/-
Theorems.  General lemmas about the association-list dict operations come
first; the claim theorems follow.
-/

theorem dictLookup_map_set {α β : Type} [BEq α] [LawfulBEq α]
    (l : List (α × β)) (k : α) (v : β) :
    l.any (fun p => p.1 == k) = true →
    dictLookup (l.map (fun p => if p.1 == k then (k, v) else p)) k = some v := by
  induction l with
  | nil => simp
  | cons a t ih =>
    intro h
    by_cases hk : a.1 == k
    · simp [dictLookup, List.find?, hk]
    · simp only [List.any_cons, hk, Bool.false_or] at h
      simp only [List.map_cons, if_neg (by simpa using hk)]
      simpa [dictLookup, List.find?, hk] using ih h

theorem dictLookup_append_single {α β : Type} [BEq α] [LawfulBEq α]
    (l : List (α × β)) (k : α) (v : β) :
    l.any (fun p => p.1 == k) = false →
    dictLookup (l ++ [(k, v)]) k = some v := by
  induction l with
  | nil => intro _; simp [dictLookup, List.find?]
  | cons a t ih =>
    intro h
    simp only [List.any_cons, Bool.or_eq_false_iff] at h
    simpa [dictLookup, List.find?, h.1] using ih h.2

theorem dictLookup_dictSet_self {α β : Type} [BEq α] [LawfulBEq α]
    (l : List (α × β)) (k : α) (v : β) :
    dictLookup (dictSet l k v) k = some v := by
  unfold dictSet
  split
  · exact dictLookup_map_set l k v (by assumption)
  · next hany => exact dictLookup_append_single l k v (Bool.eq_false_iff.mpr hany)

theorem dictLookup_map_set_ne {α β : Type} [BEq α] [LawfulBEq α]
    (l : List (α × β)) (k : α) (v : β) (u : α) (h : u ≠ k) :
    dictLookup (l.map (fun p => if p.1 == k then (k, v) else p)) u = dictLookup l u := by
  have hku : (k == u) = false := by simpa using fun e => h e.symm
  induction l with
  | nil => simp
  | cons a t ih =>
    by_cases hk : a.1 == k
    · have ha : a.1 = k := by simpa using hk
      simp only [List.map_cons, if_pos hk]
      simpa [dictLookup, List.find?, hku, ha] using ih
    · by_cases hu : a.1 == u
      · simp [dictLookup, List.find?, hk, hu]
      · simp only [List.map_cons, if_neg hk]
        simpa [dictLookup, List.find?, hu] using ih

theorem dictLookup_append_single_ne {α β : Type} [BEq α] [LawfulBEq α]
    (l : List (α × β)) (k : α) (v : β) (u : α) (h : u ≠ k) :
    dictLookup (l ++ [(k, v)]) u = dictLookup l u := by
  have hku : (k == u) = false := by simpa using fun e => h e.symm
  induction l with
  | nil => simp [dictLookup, List.find?, hku]
  | cons a t ih =>
    by_cases hu : a.1 == u
    · simp [dictLookup, List.find?, hu]
    · simpa [dictLookup, List.find?, hu] using ih

theorem dictLookup_dictSet_ne {α β : Type} [BEq α] [LawfulBEq α]
    (l : List (α × β)) (k : α) (v : β) (u : α) (h : u ≠ k) :
    dictLookup (dictSet l k v) u = dictLookup l u := by
  unfold dictSet
  split
  · exact dictLookup_map_set_ne l k v u h
  · exact dictLookup_append_single_ne l k v u h

/-- C6: a publishDiagnostics payload that is not a dict, or whose uri is
missing or empty, leaves the diagnostics store unchanged (and the handler
returns normally); a valid payload wholesale-replaces the entry for its uri
and leaves every other uri's entry untouched. -/
theorem store_diagnostics_replace_semantics :
    (∀ store, store_diagnostics .nonDict store = store)
    ∧ (∀ store dOpt, store_diagnostics (.payload none dOpt) store = store)
    ∧ (∀ store dOpt, store_diagnostics (.payload (some "") dOpt) store = store)
    ∧ (∀ store uri diags, uri ≠ "" →
        dictLookup (store_diagnostics (.payload (some uri) (some diags)) store) uri = some diags
        ∧ ∀ u, u ≠ uri →
            dictLookup (store_diagnostics (.payload (some uri) (some diags)) store) u
              = dictLookup store u) := by
  refine ⟨fun store => rfl, fun store dOpt => rfl, fun store dOpt => by simp [store_diagnostics],
    fun store uri diags huri => ?_⟩
  simp only [store_diagnostics, Option.getD_some, if_neg huri]
  exact ⟨dictLookup_dictSet_self store uri diags,
    fun u hu => dictLookup_dictSet_ne store uri diags u hu⟩

/-- Witness for C6 at a concrete store, uri and diagnostics list. -/
theorem store_diagnostics_replace_semantics_witness :
    dictLookup (store_diagnostics (.payload (some "file:///b") (some ["d2"]))
        [("file:///a", ["d1"])]) "file:///b" = some ["d2"]
    ∧ dictLookup (store_diagnostics (.payload (some "file:///b") (some ["d2"]))
        [("file:///a", ["d1"])]) "file:///a" = dictLookup [("file:///a", ["d1"])] "file:///a" := by
  have h := store_diagnostics_replace_semantics.2.2.2 [("file:///a", ["d1"])] "file:///b" ["d2"]
    (by decide)
  exact ⟨h.1, h.2 "file:///a" (by decide)⟩

/-- C10: without an Ivy language server, the diagnostics tool returns normally
in both modes: for a given file an empty diagnostics list with
server_active = false, and with no file an empty files map with
total_files = 0 and server_active = false. -/
theorem diagnostics_tool_without_server :
    ∀ (env : ToolEnv) (root rel : String), env.session = none →
      ivyDiagnostics_apply env root (some rel) = (.forFile rel [] 0 false none, [])
      ∧ ivyDiagnostics_apply env root none = (.forAll [] 0 false none, []) := by
  intro env root rel h
  constructor <;> simp [ivyDiagnostics_apply, h]

/-- Witness for C10 at the concrete serverless environment. -/
theorem diagnostics_tool_without_server_witness :
    ivyDiagnostics_apply cexEnvNoLs "/proj" (some "model.ivy")
      = (.forFile "model.ivy" [] 0 false none, [])
    ∧ ivyDiagnostics_apply cexEnvNoLs "/proj" none = (.forAll [] 0 false none, []) :=
  diagnostics_tool_without_server cexEnvNoLs "/proj" "model.ivy" rfl

/-- C7: a handshake response without the textDocumentSync capability makes
_start_server raise (so no session exists afterwards and, a session being
absent, a tool invocation never attempts a custom request); when
textDocumentSync is present, startup succeeds regardless of which optional
capabilities are absent. -/
theorem start_server_requires_textDocumentSync :
    (∀ caps : Option (List String), "textDocumentSync" ∉ caps.getD [] →
        start_server caps = .error capErrorMsg ∧ session_after_start caps = none)
    ∧ (∀ l : List String, "textDocumentSync" ∈ l → ∃ logs, start_server (some l) = .ok logs)
    ∧ (∀ (env : ToolEnv) (root rel : String) (iso : Option String), env.session = none →
        ∀ e ∈ (ivyCheck_apply env root rel iso).2, ∀ req, e ≠ Effect.customRequest req) := by
  refine ⟨fun caps h => ?_,
    fun l h => ⟨optionalCapabilityNames.map (fun c =>
      if c ∈ l then "ivy_lsp supports " ++ c else "ivy_lsp does not report " ++ c),
      by simp [start_server, h]⟩,
    fun env root rel iso hsess e he req => ?_⟩
  · have : start_server caps = .error capErrorMsg := by simp [start_server, h]
    exact ⟨this, by simp [session_after_start, this]⟩
  · rcases hval : validate_ivy_path env.isFile root rel with e1 | p
    · simp [ivyCheck_apply, hval] at he
    · rcases hreq : require_ivy_tool env.which "ivy_check" with e2 | u
      · simp [ivyCheck_apply, hval, hsess, ivyCheck_apply_via_cli, hreq] at he
      · simp [ivyCheck_apply, hval, hsess, ivyCheck_apply_via_cli, hreq] at he
        simp [he]

/-- Witness for C7: a response missing textDocumentSync fails, one containing
only it succeeds, and the serverless environment sends no custom request. -/
theorem start_server_requires_textDocumentSync_witness :
    (start_server (some ["hoverProvider"]) = .error capErrorMsg
      ∧ session_after_start (some ["hoverProvider"]) = none)
    ∧ (∃ logs, start_server (some ["textDocumentSync"]) = .ok logs)
    ∧ Effect.shellExec "ivy_check model.ivy"
        ≠ Effect.customRequest
            { method := "ivy/verify", uri := none, isolate := none, target := none, testFile := none } :=
  ⟨start_server_requires_textDocumentSync.1 (some ["hoverProvider"]) (by decide),
   start_server_requires_textDocumentSync.2.1 ["textDocumentSync"] (by decide),
   start_server_requires_textDocumentSync.2.2 cexEnvNoLs "/proj" "model.ivy" none rfl
     (Effect.shellExec "ivy_check model.ivy") (by decide) _⟩

/-- C3: for verify, compile and inspect-model alike, a relative path with the
wrong extension raises ValueError and a missing file raises
FileNotFoundError, in each case immediately: the effect trace is empty (no
session attempt, no tool invocation), whatever the session behaviour. -/
theorem validation_errors_precede_session_and_cli :
    ∀ (env : ToolEnv) (root rel target : String) (iso : Option String),
      (strEndsWith rel ".ivy" = false →
        ivyCheck_apply env root rel iso
          = (.error (.valueError ("Expected an .ivy file, got: " ++ rel)), [])
        ∧ ivyCompile_apply env root rel target iso
          = (.error (.valueError ("Expected an .ivy file, got: " ++ rel)), [])
        ∧ ivyModelInfo_apply env root rel iso
          = (.error (.valueError ("Expected an .ivy file, got: " ++ rel)), []))
      ∧ (strEndsWith rel ".ivy" = true → env.isFile (osPathJoin root rel) = false →
        ivyCheck_apply env root rel iso
          = (.error (.fileNotFoundError ("Ivy file not found: " ++ rel)), [])
        ∧ ivyCompile_apply env root rel target iso
          = (.error (.fileNotFoundError ("Ivy file not found: " ++ rel)), [])
        ∧ ivyModelInfo_apply env root rel iso
          = (.error (.fileNotFoundError ("Ivy file not found: " ++ rel)), [])) := by
  intro env root rel target iso
  constructor
  · intro h
    refine ⟨?_, ?_, ?_⟩ <;>
      simp [ivyCheck_apply, ivyCompile_apply, ivyModelInfo_apply, validate_ivy_path, h]
  · intro h hf
    refine ⟨?_, ?_, ?_⟩ <;>
      simp [ivyCheck_apply, ivyCompile_apply, ivyModelInfo_apply, validate_ivy_path, h, hf]

/-- Witness for C3 at the concrete environment: a .py path and a missing .ivy
file are both rejected with an empty effect trace. -/
theorem validation_errors_precede_session_and_cli_witness :
    (ivyCheck_apply cexEnv "/proj" "model.py" none
        = (.error (.valueError ("Expected an .ivy file, got: " ++ "model.py")), [])
      ∧ ivyCompile_apply cexEnv "/proj" "model.py" "test" none
        = (.error (.valueError ("Expected an .ivy file, got: " ++ "model.py")), [])
      ∧ ivyModelInfo_apply cexEnv "/proj" "model.py" none
        = (.error (.valueError ("Expected an .ivy file, got: " ++ "model.py")), []))
    ∧ (ivyCheck_apply cexEnv "/proj" "missing.ivy" none
        = (.error (.fileNotFoundError ("Ivy file not found: " ++ "missing.ivy")), [])
      ∧ ivyCompile_apply cexEnv "/proj" "missing.ivy" "test" none
        = (.error (.fileNotFoundError ("Ivy file not found: " ++ "missing.ivy")), [])
      ∧ ivyModelInfo_apply cexEnv "/proj" "missing.ivy" none
        = (.error (.fileNotFoundError ("Ivy file not found: " ++ "missing.ivy")), [])) :=
  ⟨(validation_errors_precede_session_and_cli cexEnv "/proj" "model.py" "test" none).1 (by decide),
   (validation_errors_precede_session_and_cli cexEnv "/proj" "missing.ivy" "test" none).2
     (by decide) (by decide)⟩

/-- C1 (counterexample): at a concrete invocation where the session's custom
request raises and the direct-path preconditions hold, the verify result's
via field is "cli", not "direct" as the claim states. -/
theorem ivy_check_via_field_is_cli_not_direct :
    ((ivyCheck_apply cexEnv "/proj" "model.ivy" none).1.toOption.map CheckPayload.via)
      = some "cli"
    ∧ (some "cli" : Option String) ≠ some "direct" := by
  constructor
  · rfl
  · decide

/-- C1 (amended): whenever a session is available but its custom request
raises, and the target is an existing .ivy file with ivy_check resolvable,
IvyCheckTool.apply returns normally (no session-path exception escapes) and
the result's via field is "cli" — the marker of the direct CLI path. -/
theorem ivy_check_session_failure_falls_back_to_cli :
    ∀ (env : ToolEnv) (root rel : String) (iso : Option String) (sess : SessionBehavior),
      env.session = some sess →
      (∀ req, sess.customRequest req = none) →
      strEndsWith rel ".ivy" = true →
      env.isFile (osPathJoin root rel) = true →
      (env.which "ivy_check").isSome = true →
      ∃ p : CheckPayload, (ivyCheck_apply env root rel iso).1 = .ok p ∧ p.via = "cli" := by
  intro env root rel iso sess hsess hraise hext hfile hwhich
  obtain ⟨v, hv⟩ := Option.isSome_iff_exists.mp hwhich
  simp only [ivyCheck_apply, validate_ivy_path, hext, Bool.not_true, Bool.false_eq_true,
    if_false, hfile, hsess, hraise, ivyCheck_apply_via_cli, require_ivy_tool, hv]
  exact ⟨_, rfl, rfl⟩

/-- Witness for C1 at the concrete environment with a raising session. -/
theorem ivy_check_session_failure_falls_back_to_cli_witness :
    ∃ p : CheckPayload, (ivyCheck_apply cexEnv "/proj" "model.ivy" none).1 = .ok p
      ∧ p.via = "cli" :=
  ivy_check_session_failure_falls_back_to_cli cexEnv "/proj" "model.ivy" none cexSession
    rfl (fun _ => rfl) (by decide) (by decide) (by decide)

/-- C9 (counterexample): on the compile operation's direct path, an external
run that exits non-zero and yields zero parseable diagnostics produces a
result that is just the raw shell output, with no parse-warning marker. -/
theorem compile_cli_lacks_parse_warning :
    (ivyCompile_apply cexEnvNoLs "/proj" "model.ivy" "test" none).1
      = .ok (.viaCli { stdout := "boom", stderr := some "", return_code := 1 })
    ∧ ({ stdout := "boom", stderr := some "", return_code := 1 } : ShellResult).return_code ≠ 0
    ∧ parse_ivy_check_output ("boom" ++ "\n" ++ "") = []
    ∧ compileParseWarningField
        (.viaCli { stdout := "boom", stderr := some "", return_code := 1 }) = none := by
  refine ⟨rfl, by decide, rfl, rfl⟩

/-- C9 (amended): only the verify operation's direct path attaches the
parse-warning marker, and it does so exactly when the process exited non-zero
and zero diagnostics were parsed; the compile operation's direct path returns
the raw shell result, which carries no parse-warning field at all. -/
theorem parse_warning_only_on_check_cli :
    (∀ (env : ToolEnv) (rel : String) (iso : Option String),
      (env.which "ivy_check").isSome = true →
      ∃ p : CheckPayload, (ivyCheck_apply_via_cli env rel iso).1 = .ok p
        ∧ (p.parse_warning = some parseWarningMsg ↔
            ((env.shell (ivyCheckCommand rel iso)).return_code ≠ 0
              ∧ parse_ivy_check_output ((env.shell (ivyCheckCommand rel iso)).stdout ++ "\n"
                  ++ ((env.shell (ivyCheckCommand rel iso)).stderr.getD "")) = [])))
    ∧ (∀ (env : ToolEnv) (root rel target : String) (iso : Option String),
      env.session = none → strEndsWith rel ".ivy" = true →
      env.isFile (osPathJoin root rel) = true → (env.which "ivyc").isSome = true →
      ∃ r : ShellResult, (ivyCompile_apply env root rel target iso).1 = .ok (.viaCli r)
        ∧ compileParseWarningField (.viaCli r) = none) := by
  constructor
  · intro env rel iso hwhich
    obtain ⟨v, hv⟩ := Option.isSome_iff_exists.mp hwhich
    simp only [ivyCheck_apply_via_cli, require_ivy_tool, hv]
    refine ⟨_, rfl, ?_⟩
    by_cases hc : ((env.shell (ivyCheckCommand rel iso)).return_code != 0
        && (parse_ivy_check_output ((env.shell (ivyCheckCommand rel iso)).stdout ++ "\n"
            ++ ((env.shell (ivyCheckCommand rel iso)).stderr.getD ""))).isEmpty) = true
    · simp only [hc, if_true]
      simp only [Bool.and_eq_true, bne_iff_ne, List.isEmpty_iff] at hc
      simp [hc]
    · simp only [hc, if_false]
      simp only [Bool.and_eq_true, bne_iff_ne, List.isEmpty_iff, not_and_or] at hc
      constructor
      · intro habs; cases habs
      · intro hrc
        rcases hc with hc | hc
        · exact absurd hrc.1 (by simpa using hc)
        · exact absurd hrc.2 hc
  · intro env root rel target iso hsess hext hfile hwhich
    obtain ⟨v, hv⟩ := Option.isSome_iff_exists.mp hwhich
    simp only [ivyCompile_apply, validate_ivy_path, hext, Bool.not_true, Bool.false_eq_true,
      if_false, hfile, hsess, ivyCompile_via_cli, require_ivy_tool, hv]
    exact ⟨_, rfl, rfl⟩

/-- Witness for C9 at the concrete environments. -/
theorem parse_warning_only_on_check_cli_witness :
    (∃ p : CheckPayload, (ivyCheck_apply_via_cli cexEnvNoLs "model.ivy" none).1 = .ok p
      ∧ (p.parse_warning = some parseWarningMsg ↔
          ((cexEnvNoLs.shell (ivyCheckCommand "model.ivy" none)).return_code ≠ 0
            ∧ parse_ivy_check_output ((cexEnvNoLs.shell (ivyCheckCommand "model.ivy" none)).stdout
                ++ "\n" ++ ((cexEnvNoLs.shell (ivyCheckCommand "model.ivy" none)).stderr.getD ""))
              = [])))
    ∧ (∃ r : ShellResult,
        (ivyCompile_apply cexEnvNoLs "/proj" "model.ivy" "test" none).1 = .ok (.viaCli r)
        ∧ compileParseWarningField (.viaCli r) = none) :=
  ⟨parse_warning_only_on_check_cli.1 cexEnvNoLs "model.ivy" none (by decide),
   parse_warning_only_on_check_cli.2 cexEnvNoLs "/proj" "model.ivy" "test" none
     rfl (by decide) (by decide) (by decide)⟩

theorem heapListGet_alloc_ne (h : DiagHeap) (elems : List Nat) (b : Nat)
    (hb : b ≠ h.next) : heapListGet (heapAllocList h elems).2 b = heapListGet h b := by
  have : (h.next == b) = false := by simpa using fun e => hb e.symm
  simp [heapAllocList, heapListGet, dictLookup, List.find?, this]

theorem heapListGet_setList_ne (h : DiagHeap) (a : Nat) (elems : List Nat) (b : Nat)
    (hb : b ≠ a) : heapListGet (heapSetList h a elems) b = heapListGet h b := by
  simp only [heapSetList, heapListGet]
  rw [dictLookup_dictSet_ne h.lists a elems b hb]

theorem cacheView_congr (store : List (String × Nat)) (h1 h2 : DiagHeap) (uri : String)
    (hl : ∀ p ∈ store, heapListGet h2 p.2 = heapListGet h1 p.2) (hr : h2.recs = h1.recs) :
    cacheView store h2 uri = cacheView store h1 uri := by
  unfold cacheView
  cases hfind : dictLookup store uri with
  | none => rfl
  | some a =>
    obtain ⟨q, hq, hq2⟩ := Option.map_eq_some'.mp hfind
    have hmem : q ∈ store := List.mem_of_find?_eq_some hq
    have hga : heapListGet h2 a = heapListGet h1 a := hq2 ▸ hl q hmem
    have hgr : heapRecGet h2 = heapRecGet h1 := by
      funext r; simp [heapRecGet, hr]
    simp only [hga, hgr]

theorem get_all_stored_diagnostics_props (store : List (String × Nat)) (h : DiagHeap) :
    (get_all_stored_diagnostics store h).2.next = h.next + store.length
    ∧ (get_all_stored_diagnostics store h).2.recs = h.recs
    ∧ (∀ b < h.next,
        heapListGet (get_all_stored_diagnostics store h).2 b = heapListGet h b)
    ∧ (∀ q ∈ (get_all_stored_diagnostics store h).1, h.next ≤ q.2) := by
  induction store generalizing h with
  | nil => simp [get_all_stored_diagnostics]
  | cons e rest ih =>
    obtain ⟨uri, a⟩ := e
    have hnext : (heapAllocList h (heapListGet h a)).2.next = h.next + 1 := rfl
    have hrecs2 : (heapAllocList h (heapListGet h a)).2.recs = h.recs := rfl
    have haddr : (heapAllocList h (heapListGet h a)).1 = h.next := rfl
    obtain ⟨ihn, ihr, ihl, ihf⟩ := ih (heapAllocList h (heapListGet h a)).2
    simp only [get_all_stored_diagnostics]
    refine ⟨?_, ?_, ?_, ?_⟩
    · rw [ihn, hnext, List.length_cons]; omega
    · rw [ihr, hrecs2]
    · intro b hb
      rw [ihl b (by rw [hnext]; omega)]
      exact heapListGet_alloc_ne h (heapListGet h a) b (by omega)
    · intro q hq
      rcases List.mem_cons.mp hq with hq | hq
      · subst hq; rw [haddr]
      · have := ihf q hq
        rw [hnext] at this
        omega

/-- C4 (amended): the diagnostics read accessors return freshly allocated list
containers, so container-level mutations of a returned list (of the single-uri
snapshot, or of any list in the all-uris snapshot) leave every subsequent
cache read unchanged; the diagnostic records inside are shared by reference
(the copy is shallow), so in-place mutation of a returned record is visible
to subsequent reads. -/
theorem stored_diagnostics_container_copy :
    (∀ store h uri, heapWF store h →
      ∀ elems uri',
        cacheView store
            (heapSetList (get_stored_diagnostics store h uri).2
              (get_stored_diagnostics store h uri).1 elems) uri'
          = cacheView store h uri')
    ∧ (∀ store h, heapWF store h →
      ∀ a ∈ ((get_all_stored_diagnostics store h).1.map (fun p => p.2)), ∀ elems uri',
        cacheView store (heapSetList (get_all_stored_diagnostics store h).2 a elems) uri'
          = cacheView store h uri') := by
  constructor
  · intro store h uri hwf elems uri'
    have haddr : (get_stored_diagnostics store h uri).1 = h.next := rfl
    refine cacheView_congr store h _ uri' (fun p hp => ?_) rfl
    have hlt : p.2 < h.next := hwf p hp
    rw [haddr, heapListGet_setList_ne _ _ _ _ (by omega)]
    exact heapListGet_alloc_ne h _ p.2 (by omega)
  · intro store h hwf a ha elems uri'
    obtain ⟨q, hq, hq2⟩ := List.mem_map.mp ha
    obtain ⟨hn, hr, hl, hf⟩ := get_all_stored_diagnostics_props store h
    have hfresh : h.next ≤ a := hq2 ▸ hf q hq
    refine cacheView_congr store h _ uri' (fun p hp => ?_) (by simp [heapSetList, hr])
    have hlt : p.2 < h.next := hwf p hp
    rw [heapListGet_setList_ne _ _ _ _ (by omega)]
    exact hl p.2 hlt

/-- Witness for C4 (amended) at the concrete cache: container-level mutations
of both accessors' results leave the subsequent read unchanged. -/
theorem stored_diagnostics_container_copy_witness :
    cacheView cexStore
        (heapSetList (get_stored_diagnostics cexStore cexHeap "file:///proj/model.ivy").2
          (get_stored_diagnostics cexStore cexHeap "file:///proj/model.ivy").1 [])
        "file:///proj/model.ivy"
      = cacheView cexStore cexHeap "file:///proj/model.ivy"
    ∧ cacheView cexStore
        (heapSetList (get_all_stored_diagnostics cexStore cexHeap).2 2 [])
        "file:///proj/model.ivy"
      = cacheView cexStore cexHeap "file:///proj/model.ivy" :=
  ⟨stored_diagnostics_container_copy.1 cexStore cexHeap "file:///proj/model.ivy"
      (by unfold heapWF cexStore cexHeap; decide) [] "file:///proj/model.ivy",
   stored_diagnostics_container_copy.2 cexStore cexHeap
      (by unfold heapWF cexStore cexHeap; decide) 2
      (by decide) [] "file:///proj/model.ivy"⟩

/-- C4 (counterexample): the copy is shallow.  At a concrete cache, the
single-uri accessor returns a fresh list (address 2) whose element is the
shared record address 1; mutating that record through the returned snapshot
changes what a subsequent read of the same uri returns, refuting the claim
that any mutation of a returned value leaves the cache unchanged. -/
theorem stored_diagnostics_shallow_copy_counterexample :
    (get_stored_diagnostics cexStore cexHeap "file:///proj/model.ivy").1 = 2
    ∧ heapListGet (get_stored_diagnostics cexStore cexHeap "file:///proj/model.ivy").2 2 = [1]
    ∧ cacheView cexStore cexHeap "file:///proj/model.ivy" = ["severity=error message=bad"]
    ∧ cacheView cexStore
        (heapSetRec (get_stored_diagnostics cexStore cexHeap "file:///proj/model.ivy").2
          1 "mutated")
        "file:///proj/model.ivy" = ["mutated"]
    ∧ (["mutated"] : List String) ≠ ["severity=error message=bad"] := by
  refine ⟨rfl, rfl, rfl, rfl, by decide⟩

theorem takeWhile_append_all {α : Type} (p : α → Bool) (xs ys : List α)
    (h : ∀ x ∈ xs, p x = true) : (xs ++ ys).takeWhile p = xs ++ ys.takeWhile p := by
  induction xs with
  | nil => simp
  | cons a t ih =>
    have ha : p a = true := h a (List.mem_cons_self a t)
    simp only [List.cons_append, List.takeWhile_cons, ha, if_true]
    rw [ih (fun x hx => h x (List.mem_cons_of_mem a hx))]

theorem dropWhile_append_all {α : Type} (p : α → Bool) (xs ys : List α)
    (h : ∀ x ∈ xs, p x = true) : (xs ++ ys).dropWhile p = ys.dropWhile p := by
  induction xs with
  | nil => simp
  | cons a t ih =>
    have ha : p a = true := h a (List.mem_cons_self a t)
    simp only [List.cons_append, List.dropWhile_cons, ha, if_true]
    exact ih (fun x hx => h x (List.mem_cons_of_mem a hx))

theorem scanDiagLine_prefix (path : List Char) (pre rest : List Char)
    (h : ∀ c ∈ path, c ≠ ':') :
    scanDiagLine pre (path ++ rest) = scanDiagLine (path.reverse ++ pre) rest := by
  induction path generalizing pre with
  | nil => simp
  | cons c t ih =>
    have hc : c ≠ ':' := h c (List.mem_cons_self c t)
    simp only [List.cons_append, scanDiagLine, if_neg hc, List.append_eq]
    rw [ih (c :: pre) (fun x hx => h x (List.mem_cons_of_mem c hx))]
    simp [List.append_assoc]

theorem matchSeverity_error (rest : List Char) :
    matchSeverity ('e' :: 'r' :: 'r' :: 'o' :: 'r' :: rest) = some ("error", rest) := rfl

theorem matchSeverity_warning (rest : List Char) :
    matchSeverity ('w' :: 'a' :: 'r' :: 'n' :: 'i' :: 'n' :: 'g' :: rest)
      = some ("warning", rest) := rfl

theorem asString_data (s : String) : s.data.asString = s := rfl

theorem data_asString (l : List Char) : l.asString.data = l := rfl

theorem dropWhile_pySpace_msg (msg : String)
    (hmsg : ∀ c, msg.data.head? = some c → isPySpace c = false) :
    msg.data.dropWhile isPySpace = msg.data := by
  cases hm : msg.data with
  | nil => rfl
  | cons c t =>
    have : isPySpace c = false := hmsg c (by rw [hm]; rfl)
    simp [List.dropWhile, this]

theorem matchFromColon_spec (ds : List Char) (sev msg : String) (hds : ds ≠ [])
    (hdig : ∀ c ∈ ds, c.isDigit = true)
    (hsev : sev = "error" ∨ sev = "warning")
    (hmsg : ∀ c, msg.data.head? = some c → isPySpace c = false) :
    matchFromColon (ds ++ ':' :: ' ' :: (sev.data ++ ':' :: ' ' :: msg.data))
      = some (digitsToNat ds, sev, msg) := by
  have hdse : ds.isEmpty = false := by
    cases ds with
    | nil => exact absurd rfl hds
    | cons a t => rfl
  have hmsgdrop : List.dropWhile isPySpace (' ' :: msg.data) = msg.data :=
    dropWhile_pySpace_msg msg hmsg
  rcases hsev with hsev | hsev <;> subst hsev
  · have htake : List.takeWhile Char.isDigit
        (ds ++ ':' :: ' ' :: 'e' :: 'r' :: 'r' :: 'o' :: 'r' :: ':' :: ' ' :: msg.data)
        = ds := by
      rw [takeWhile_append_all Char.isDigit ds _ hdig,
        show List.takeWhile Char.isDigit
          (':' :: ' ' :: 'e' :: 'r' :: 'r' :: 'o' :: 'r' :: ':' :: ' ' :: msg.data) = []
          from rfl, List.append_nil]
    have hdrop : List.dropWhile Char.isDigit
        (ds ++ ':' :: ' ' :: 'e' :: 'r' :: 'r' :: 'o' :: 'r' :: ':' :: ' ' :: msg.data)
        = ':' :: ' ' :: 'e' :: 'r' :: 'r' :: 'o' :: 'r' :: ':' :: ' ' :: msg.data := by
      rw [dropWhile_append_all Char.isDigit ds _ hdig]
      rfl
    have hsevdrop : List.dropWhile isPySpace
        (' ' :: 'e' :: 'r' :: 'r' :: 'o' :: 'r' :: ':' :: ' ' :: msg.data)
        = 'e' :: 'r' :: 'r' :: 'o' :: 'r' :: ':' :: ' ' :: msg.data := rfl
    simp only [matchFromColon, List.cons_append, List.nil_append, htake, hdrop, hdse,
      Bool.false_eq_true, if_false, hsevdrop, matchSeverity_error, hmsgdrop, asString_data]
  · have htake : List.takeWhile Char.isDigit
        (ds ++ ':' :: ' ' :: 'w' :: 'a' :: 'r' :: 'n' :: 'i' :: 'n' :: 'g' :: ':' :: ' ' :: msg.data)
        = ds := by
      rw [takeWhile_append_all Char.isDigit ds _ hdig,
        show List.takeWhile Char.isDigit
          (':' :: ' ' :: 'w' :: 'a' :: 'r' :: 'n' :: 'i' :: 'n' :: 'g' :: ':' :: ' ' :: msg.data)
          = [] from rfl, List.append_nil]
    have hdrop : List.dropWhile Char.isDigit
        (ds ++ ':' :: ' ' :: 'w' :: 'a' :: 'r' :: 'n' :: 'i' :: 'n' :: 'g' :: ':' :: ' ' :: msg.data)
        = ':' :: ' ' :: 'w' :: 'a' :: 'r' :: 'n' :: 'i' :: 'n' :: 'g' :: ':' :: ' ' :: msg.data := by
      rw [dropWhile_append_all Char.isDigit ds _ hdig]
      rfl
    have hsevdrop : List.dropWhile isPySpace
        (' ' :: 'w' :: 'a' :: 'r' :: 'n' :: 'i' :: 'n' :: 'g' :: ':' :: ' ' :: msg.data)
        = 'w' :: 'a' :: 'r' :: 'n' :: 'i' :: 'n' :: 'g' :: ':' :: ' ' :: msg.data := rfl
    simp only [matchFromColon, List.cons_append, List.nil_append, htake, hdrop, hdse,
      Bool.false_eq_true, if_false, hsevdrop, matchSeverity_warning, hmsgdrop, asString_data]

theorem splitlinesAux_terminated (l : List Char) (rest acc : List Char)
    (h : ∀ c ∈ l, isLineBreak c = false) :
    splitlinesAux (l ++ '\n' :: rest) acc false
      = (acc.reverse ++ l).asString :: splitlinesAux rest [] false := by
  induction l generalizing acc with
  | nil => simp [splitlinesAux, isLineBreak]
  | cons c t ih =>
    have hc : isLineBreak c = false := h c (List.mem_cons_self c t)
    have hcr : c ≠ '\r' := by
      intro e; subst e; simp [isLineBreak] at hc
    simp only [List.cons_append, splitlinesAux, Bool.false_and, Bool.false_eq_true, if_false,
      if_neg hcr, hc, List.append_eq]
    rw [ih (c :: acc) (fun x hx => h x (List.mem_cons_of_mem c hx))]
    simp [List.append_assoc]

theorem pySplitlines_concatTerminated (lines : List String)
    (h : ∀ l ∈ lines, ∀ c ∈ l.data, isLineBreak c = false) :
    pySplitlines (concatTerminated lines) = lines := by
  induction lines with
  | nil => rfl
  | cons l ls ih =>
    have hdata : (concatTerminated (l :: ls)).data
        = l.data ++ '\n' :: (concatTerminated ls).data := by
      show (l ++ "\n" ++ concatTerminated ls).data = _
      simp [String.data_append]
    unfold pySplitlines
    rw [hdata, splitlinesAux_terminated l.data _ [] (h l (List.mem_cons_self l ls))]
    simp only [List.reverse_nil, List.nil_append, asString_data]
    show l :: splitlinesAux (concatTerminated ls).data [] false = l :: ls
    rw [show splitlinesAux (concatTerminated ls).data [] false
        = pySplitlines (concatTerminated ls) from rfl,
      ih (fun x hx => h x (List.mem_cons_of_mem l hx))]

/-- C2: the diagnostic-line parser emits exactly one record, with the matched
fields, for a well-formed line path:NN: severity: message (path colon-free,
digits non-empty, message not beginning with whitespace); the whole parser is
the per-line scan over the split lines, so non-matching lines contribute
nothing and order is preserved; empty input gives the empty list; and on the
concrete four-line input it returns exactly the three records in encountered
order with error count 2 and warning count 1. -/
theorem parse_ivy_check_output_correct :
    (∀ (path : String) (ds : List Char) (sev msg : String),
        (∀ c ∈ path.data, c ≠ ':') → ds ≠ [] → (∀ c ∈ ds, c.isDigit = true) →
        (sev = "error" ∨ sev = "warning") →
        (∀ c, msg.data.head? = some c → isPySpace c = false) →
        parseDiagLine (path ++ ":" ++ ds.asString ++ ": " ++ sev ++ ": " ++ msg)
          = some ⟨path, digitsToNat ds, sev, msg⟩)
    ∧ parse_ivy_check_output "" = []
    ∧ (∀ lines : List String, (∀ l ∈ lines, ∀ c ∈ l.data, isLineBreak c = false) →
        parse_ivy_check_output (concatTerminated lines) = lines.filterMap parseDiagLine)
    ∧ parse_ivy_check_output
        "a.ivy:1: error: missing type\nb.ivy:2: warning: shadowed name\nnoise\na.ivy:10: error: undeclared\n"
        = [⟨"a.ivy", 1, "error", "missing type"⟩, ⟨"b.ivy", 2, "warning", "shadowed name"⟩,
           ⟨"a.ivy", 10, "error", "undeclared"⟩]
    ∧ error_count_of (parse_ivy_check_output
        "a.ivy:1: error: missing type\nb.ivy:2: warning: shadowed name\nnoise\na.ivy:10: error: undeclared\n") = 2
    ∧ warning_count_of (parse_ivy_check_output
        "a.ivy:1: error: missing type\nb.ivy:2: warning: shadowed name\nnoise\na.ivy:10: error: undeclared\n") = 1 := by
  refine ⟨?_, rfl, ?_, by decide, by decide, by decide⟩
  · intro path ds sev msg hpath hds hdig hsev hmsg
    have hdata : (path ++ ":" ++ ds.asString ++ ": " ++ sev ++ ": " ++ msg).data
        = path.data ++ ':' :: (ds ++ ':' :: ' ' :: (sev.data ++ ':' :: ' ' :: msg.data)) := by
      simp [String.data_append, data_asString]
    unfold parseDiagLine
    rw [hdata, scanDiagLine_prefix path.data [] _ hpath]
    simp only [scanDiagLine, if_pos rfl,
      matchFromColon_spec ds sev msg hds hdig hsev hmsg]
    simp [List.reverse_reverse, asString_data]
  · intro lines h
    unfold parse_ivy_check_output
    rw [pySplitlines_concatTerminated lines h]

/-- Witness for C2 at a concrete well-formed line and a concrete line list. -/
theorem parse_ivy_check_output_correct_witness :
    parseDiagLine ("m.ivy" ++ ":" ++ (['3'] : List Char).asString ++ ": " ++ "error" ++ ": "
        ++ "boom")
      = some ⟨"m.ivy", digitsToNat ['3'], "error", "boom"⟩
    ∧ parse_ivy_check_output (concatTerminated ["x.ivy:1: error: bad", "noise"])
      = ["x.ivy:1: error: bad", "noise"].filterMap parseDiagLine :=
  ⟨parse_ivy_check_output_correct.1 "m.ivy" ['3'] "error" "boom" (by decide) (by decide)
      (by decide) (Or.inl rfl) (by intro c hc; injection hc with h1; subst h1; rfl),
   parse_ivy_check_output_correct.2.2.1 ["x.ivy:1: error: bad", "noise"] (by decide)⟩

theorem rbrace_ne_lbrace : rbraceChar ≠ lbraceChar := by decide

theorem braceScanLine_no_error (i : Nat) (cs : List Char) (d : Nat)
    (h : braceScanOk d cs = true) :
    braceScanLine i cs d = (braceFinalDepth d cs, []) := by
  induction cs generalizing d with
  | nil => rfl
  | cons c rest ih =>
    by_cases hl : c = lbraceChar
    · subst hl
      simp only [braceScanOk, eq_self_iff_true, if_true] at h
      simp only [braceScanLine, braceFinalDepth, eq_self_iff_true, if_true]
      exact ih (d + 1) h
    · by_cases hr : c = rbraceChar
      · subst hr
        simp only [braceScanOk, if_neg rbrace_ne_lbrace, eq_self_iff_true, if_true,
          Bool.and_eq_true, decide_eq_true_eq] at h
        simp only [braceScanLine, braceFinalDepth, if_neg rbrace_ne_lbrace,
          eq_self_iff_true, if_true, if_neg h.1]
        exact ih (d - 1) h.2
      · simp only [braceScanOk, if_neg hl, if_neg hr] at h
        simp only [braceScanLine, braceFinalDepth, if_neg hl, if_neg hr]
        exact ih d h

theorem braceScanOk_append (xs ys : List Char) (d : Nat) :
    braceScanOk d (xs ++ ys)
      = (braceScanOk d xs && braceScanOk (braceFinalDepth d xs) ys) := by
  induction xs generalizing d with
  | nil => simp [braceScanOk, braceFinalDepth]
  | cons c rest ih =>
    by_cases hl : c = lbraceChar
    · subst hl
      simp only [List.cons_append, List.append_eq, braceScanOk, braceFinalDepth,
        eq_self_iff_true, if_true]
      exact ih (d + 1)
    · by_cases hr : c = rbraceChar
      · subst hr
        simp only [List.cons_append, List.append_eq, braceScanOk, braceFinalDepth,
          if_neg rbrace_ne_lbrace, eq_self_iff_true, if_true]
        rw [ih (d - 1), Bool.and_assoc]
      · simp only [List.cons_append, List.append_eq, braceScanOk, braceFinalDepth,
          if_neg hl, if_neg hr]
        exact ih d

theorem braceFinalDepth_append (xs ys : List Char) (d : Nat) :
    braceFinalDepth d (xs ++ ys) = braceFinalDepth (braceFinalDepth d xs) ys := by
  induction xs generalizing d with
  | nil => rfl
  | cons c rest ih =>
    by_cases hl : c = lbraceChar
    · subst hl
      simp only [List.cons_append, List.append_eq, braceFinalDepth, eq_self_iff_true, if_true]
      exact ih (d + 1)
    · by_cases hr : c = rbraceChar
      · subst hr
        simp only [List.cons_append, List.append_eq, braceFinalDepth,
          if_neg rbrace_ne_lbrace, eq_self_iff_true, if_true]
        exact ih (d - 1)
      · simp only [List.cons_append, List.append_eq, braceFinalDepth, if_neg hl, if_neg hr]
        exact ih d

theorem flatCodeOf_cons (l : String) (ls : List String) :
    flatCodeOf (l :: ls) = (codeOfLine l).data ++ flatCodeOf ls := rfl

theorem braceScanLines_no_error (lines : List String) (i d : Nat)
    (h : braceScanOk d (flatCodeOf lines) = true) :
    braceScanLines lines i d = (braceFinalDepth d (flatCodeOf lines), []) := by
  induction lines generalizing i d with
  | nil => rfl
  | cons l ls ih =>
    rw [flatCodeOf_cons, braceScanOk_append, Bool.and_eq_true] at h
    obtain ⟨h1, h2⟩ := h
    simp only [braceScanLines]
    rw [braceScanLine_no_error i _ d h1, ih (i + 1) _ h2]
    simp [flatCodeOf_cons, braceFinalDepth_append]

theorem braceScanLines_append (A B : List String) (i d : Nat) :
    braceScanLines (A ++ B) i d
      = ((braceScanLines B (i + A.length) (braceScanLines A i d).1).1,
         (braceScanLines A i d).2
           ++ (braceScanLines B (i + A.length) (braceScanLines A i d).1).2) := by
  induction A generalizing i d with
  | nil => simp [braceScanLines]
  | cons l ls ih =>
    simp only [List.cons_append, List.append_eq, braceScanLines, List.length_cons]
    rw [ih (i + 1)]
    have harith : i + 1 + ls.length = i + (ls.length + 1) := by omega
    rw [harith, List.append_assoc]

theorem braceScanLine_stray (i : Nat) : braceScanLine i [rbraceChar] 0 = (0, [i]) := by
  simp [braceScanLine, rbrace_ne_lbrace]

/-- C5: the structural scanner is the concatenation of its header, brace and
include passes; with a leading header marker the header pass is silent, and
with balanced braces (no stray closer, final depth zero over the
comment-stripped code) the brace pass is silent; a missing header yields
exactly one warning at line 1; exactly one unclosed opener (clean scan, final
depth one) yields exactly the end-of-file error reporting count 1 at the last
line; and a stray closing brace between balanced parts yields exactly one
error at its line — the depth reset prevents any later false positive. -/
theorem check_structural_issues_cases :
    (∀ (isFile : String → Bool) (source filepath : String),
        check_structural_issues isFile source filepath
          = headerDiagsOf source ++ braceDiagsOf (pySplitNL source)
            ++ includeDiagsOf isFile source filepath)
    ∧ (∀ source : String, strStartsWith (pyLstrip source) "#lang" = true →
        headerDiagsOf source = [])
    ∧ (∀ lines : List String, braceScanOk 0 (flatCodeOf lines) = true →
        braceFinalDepth 0 (flatCodeOf lines) = 0 → braceDiagsOf lines = [])
    ∧ (∀ source : String, strStartsWith (pyLstrip source) "#lang" = false →
        headerDiagsOf source = [⟨1, "warning", headerMsg, "ivy-lint"⟩])
    ∧ (∀ lines : List String, braceScanOk 0 (flatCodeOf lines) = true →
        braceFinalDepth 0 (flatCodeOf lines) = 1 →
        braceDiagsOf lines = [⟨lines.length, "error", openingBraceMsg 1, "ivy-lint"⟩])
    ∧ (∀ (A : List String) (l : String) (B : List String),
        braceScanOk 0 (flatCodeOf A) = true → braceFinalDepth 0 (flatCodeOf A) = 0 →
        (codeOfLine l).data = [rbraceChar] →
        braceScanOk 0 (flatCodeOf B) = true → braceFinalDepth 0 (flatCodeOf B) = 0 →
        braceDiagsOf (A ++ l :: B)
          = [⟨A.length + 1, "error", closingBraceMsg, "ivy-lint"⟩]) := by
  refine ⟨fun isFile source filepath => rfl, fun source h => by simp [headerDiagsOf, h],
    fun lines h1 h2 => ?_, fun source h => by simp [headerDiagsOf, h],
    fun lines h1 h2 => ?_, fun A l B hA1 hA2 hl hB1 hB2 => ?_⟩
  · unfold braceDiagsOf
    rw [braceScanLines_no_error lines 1 0 h1, h2]
    simp
  · unfold braceDiagsOf
    rw [braceScanLines_no_error lines 1 0 h1, h2]
    simp
  · have hA : braceScanLines A 1 0 = (0, []) := by
      rw [braceScanLines_no_error A 1 0 hA1, hA2]
    have hlB : braceScanLines (l :: B) (1 + A.length) 0 = (0, [1 + A.length]) := by
      simp only [braceScanLines, hl, braceScanLine_stray]
      rw [braceScanLines_no_error B (1 + A.length + 1) 0 hB1, hB2]
      simp
    have hfull : braceScanLines (A ++ l :: B) 1 0 = (0, [1 + A.length]) := by
      rw [braceScanLines_append A (l :: B) 1 0, hA]
      simp only []
      rw [hlB]
      simp
    unfold braceDiagsOf
    rw [hfull]
    have harith : 1 + A.length = A.length + 1 := by omega
    simp [harith]

/-- Witness for C5 at concrete documents for each scanner case. -/
theorem check_structural_issues_cases_witness :
    headerDiagsOf "#lang ivy1.7\nobject = \x7b\n\x7d" = []
    ∧ braceDiagsOf (pySplitNL "#lang ivy1.7\nobject = \x7b\n\x7d") = []
    ∧ headerDiagsOf "object" = [⟨1, "warning", headerMsg, "ivy-lint"⟩]
    ∧ braceDiagsOf (pySplitNL "#lang ivy1.7\nobject = \x7b")
        = [⟨2, "error", openingBraceMsg 1, "ivy-lint"⟩]
    ∧ braceDiagsOf (["#lang ivy1.7"] ++ "\x7d" :: ["relation r"])
        = [⟨2, "error", closingBraceMsg, "ivy-lint"⟩] :=
  ⟨check_structural_issues_cases.2.1 _ (by decide),
   check_structural_issues_cases.2.2.1 _ (by decide) (by decide),
   check_structural_issues_cases.2.2.2.1 "object" (by decide),
   check_structural_issues_cases.2.2.2.2.1 _ (by decide) (by decide),
   check_structural_issues_cases.2.2.2.2.2 ["#lang ivy1.7"] "\x7d" ["relation r"]
     (by decide) (by decide) (by decide) (by decide) (by decide)⟩

theorem mem_flattenAll {x : String} {l : List String} {L : List (List String)}
    (hl : l ∈ L) (hx : x ∈ l) : x ∈ flattenAll L := by
  induction L with
  | nil => cases hl
  | cons a t ih =>
    rcases List.mem_cons.mp hl with h | h
    · subst h; exact List.mem_append_left _ hx
    · exact List.mem_append_right _ (ih h)

theorem length_le_flattenAll {l : List String} {L : List (List String)} (hl : l ∈ L) :
    l.length ≤ (flattenAll L).length := by
  induction L with
  | nil => cases hl
  | cons a t ih =>
    rcases List.mem_cons.mp hl with h | h
    · subst h
      show l.length ≤ (l ++ flattenAll t).length
      rw [List.length_append]; omega
    · have := ih h
      show l.length ≤ (a ++ flattenAll t).length
      rw [List.length_append]; omega

theorem dictLookup_value_mem {α β : Type} [BEq α] {l : List (α × β)} {k : α} {v : β}
    (h : dictLookup l k = some v) : v ∈ l.map (fun p => p.2) := by
  obtain ⟨q, hq, hq2⟩ := Option.map_eq_some'.mp h
  exact List.mem_map.mpr ⟨q, List.mem_of_find?_eq_some hq, hq2⟩

theorem graph_incs_mem {graph : List (String × List String)} {path : String}
    {incs : List String} (h : dictLookup graph path = some incs) :
    (∀ x ∈ incs, x ∈ graphMods graph) ∧ incs.length ≤ (graphMods graph).length := by
  have hmem : incs ∈ graph.map (fun p => p.2) := dictLookup_value_mem h
  exact ⟨fun x hx => mem_flattenAll hmem hx, length_le_flattenAll hmem⟩

theorem transFuel_visited_lt (graph : List (String × List String))
    (visited rest : List String) (m : String) (hv : m ∈ visited) :
    transFuel graph visited rest < transFuel graph visited (m :: rest) := by
  unfold transFuel
  have hset : ((m :: rest ++ graphMods graph).toFinset \ visited.toFinset)
      = ((rest ++ graphMods graph).toFinset \ visited.toFinset) := by
    rw [List.cons_append, List.toFinset_cons]
    exact Finset.insert_sdiff_of_mem _ (by simpa using hv)
  rw [hset]
  exact Nat.add_lt_add_left (Nat.lt_succ_self _) _

theorem transFuel_new_lt (graph : List (String × List String))
    (visited rest pushed : List String) (m : String) (hv : m ∉ visited)
    (hpm : ∀ x ∈ pushed, x ∈ graphMods graph)
    (hpl : pushed.length ≤ (graphMods graph).length) :
    transFuel graph (m :: visited) (pushed ++ rest) < transFuel graph visited (m :: rest) := by
  have hSsub : ((pushed ++ rest ++ graphMods graph).toFinset \ (m :: visited).toFinset)
      ⊆ (((m :: rest ++ graphMods graph).toFinset \ visited.toFinset).erase m) := by
    intro x hx
    simp only [Finset.mem_sdiff, List.mem_toFinset, List.mem_append, List.mem_cons,
      Finset.mem_erase, not_or] at hx ⊢
    obtain ⟨hx1, hx2, hx3⟩ := hx
    have hg2 : x ∈ pushed → x ∈ graphMods graph := hpm x
    refine ⟨hx2, ?_, hx3⟩
    tauto
  have hmodmem : m ∈ ((m :: rest ++ graphMods graph).toFinset \ visited.toFinset) := by
    simp [hv]
  have hcard : ((pushed ++ rest ++ graphMods graph).toFinset \ (m :: visited).toFinset).card
      + 1 ≤ ((m :: rest ++ graphMods graph).toFinset \ visited.toFinset).card := by
    have h1 := Finset.card_le_card hSsub
    have h2 := Finset.card_erase_lt_of_mem hmodmem
    omega
  unfold transFuel
  rw [List.length_append, List.length_cons]
  have h1 : (((pushed ++ rest ++ graphMods graph).toFinset \ (m :: visited).toFinset).card + 1)
      * ((graphMods graph).length + 1)
      ≤ ((m :: rest ++ graphMods graph).toFinset \ visited.toFinset).card
        * ((graphMods graph).length + 1) :=
    Nat.mul_le_mul_right _ hcard
  rw [Nat.succ_mul] at h1
  set x := ((pushed ++ rest ++ graphMods graph).toFinset \ (m :: visited).toFinset).card
    * ((graphMods graph).length + 1) with hx
  set y := ((m :: rest ++ graphMods graph).toFinset \ visited.toFinset).card
    * ((graphMods graph).length + 1) with hy
  omega

theorem transLoopF_fuel_stable (graph : List (String × List String))
    (bm : List (String × String)) :
    ∀ (fuel : Nat) (visited stack : List String), transFuel graph visited stack ≤ fuel →
      transLoopF graph bm (fuel + 1) visited stack = transLoopF graph bm fuel visited stack := by
  intro fuel
  induction fuel with
  | zero =>
    intro visited stack h
    have hstack : stack = [] := by
      cases stack with
      | nil => rfl
      | cons m rest =>
        exfalso
        have : (m :: rest).length ≤ transFuel graph visited (m :: rest) := by
          unfold transFuel; omega
        simp [List.length_cons] at this
        omega
    subst hstack; rfl
  | succ n ih =>
    intro visited stack h
    cases stack with
    | nil => rfl
    | cons m rest =>
      by_cases hv : m ∈ visited
      · simp only [transLoopF, if_pos hv]
        exact ih visited rest (by
          have := transFuel_visited_lt graph visited rest m hv; omega)
      · have hnew0 : transFuel graph (m :: visited) rest < transFuel graph visited (m :: rest) := by
          have := transFuel_new_lt graph visited rest [] m hv (by intro x hx; cases hx)
            (by simp)
          simpa using this
        cases hbm : dictLookup bm m with
        | none =>
          simp only [transLoopF, if_neg hv, hbm]
          exact ih (m :: visited) rest (by omega)
        | some path =>
          by_cases hpath : path ≠ ""
          · cases hg : dictLookup graph path with
            | some incs =>
              simp only [transLoopF, if_neg hv, hbm, if_pos hpath, hg]
              obtain ⟨hpm, hpl⟩ := graph_incs_mem hg
              have := transFuel_new_lt graph visited rest incs.reverse m hv
                (by intro x hx; exact hpm x (List.mem_reverse.mp hx))
                (by rw [List.length_reverse]; exact hpl)
              exact ih (m :: visited) (incs.reverse ++ rest) (by omega)
            | none =>
              simp only [transLoopF, if_neg hv, hbm, if_pos hpath, hg]
              exact ih (m :: visited) rest (by omega)
          · simp only [transLoopF, if_neg hv, hbm, if_neg hpath]
            exact ih (m :: visited) rest (by omega)

theorem transLoopF_fuel_ge (graph : List (String × List String))
    (bm : List (String × String)) (visited stack : List String) :
    ∀ k : Nat, transLoopF graph bm (transFuel graph visited stack + k) visited stack
      = transLoopF graph bm (transFuel graph visited stack) visited stack := by
  intro k
  induction k with
  | zero => rfl
  | succ n ih =>
    rw [show transFuel graph visited stack + (n + 1)
        = (transFuel graph visited stack + n) + 1 from by omega,
      transLoopF_fuel_stable graph bm (transFuel graph visited stack + n) visited stack
        (by omega), ih]

theorem transLoopF_nodup (graph : List (String × List String))
    (bm : List (String × String)) :
    ∀ (fuel : Nat) (visited stack : List String), visited.Nodup →
      (transLoopF graph bm fuel visited stack).Nodup := by
  intro fuel
  induction fuel with
  | zero =>
    intro visited stack hn
    cases stack <;> simpa [transLoopF]
  | succ n ih =>
    intro visited stack hn
    cases stack with
    | nil => simpa [transLoopF]
    | cons m rest =>
      by_cases hv : m ∈ visited
      · simp only [transLoopF, if_pos hv]; exact ih visited rest hn
      · have hn2 : (m :: visited).Nodup := List.nodup_cons.mpr ⟨hv, hn⟩
        cases hbm : dictLookup bm m with
        | none => simp only [transLoopF, if_neg hv, hbm]; exact ih _ rest hn2
        | some path =>
          by_cases hpath : path ≠ ""
          · cases hg : dictLookup graph path with
            | some incs =>
              simp only [transLoopF, if_neg hv, hbm, if_pos hpath, hg]
              exact ih _ _ hn2
            | none =>
              simp only [transLoopF, if_neg hv, hbm, if_pos hpath, hg]
              exact ih _ rest hn2
          · simp only [transLoopF, if_neg hv, hbm, if_neg hpath]
            exact ih _ rest hn2

/-- C8: on the project a.ivy (include b), b.ivy (include c), no c.ivy, the
per-file query for a.ivy resolves includes = [b -> b.ivy], puts both b and c
in the transitive closure with c unresolved (its basename maps to no file)
yet not dropped; the worklist never re-adds a visited module (the result
stays duplicate-free), and any fuel at or above the measure gives the same
result — the loop terminates within the measure even on cyclic graphs, as the
concrete cyclic project a.ivy (include b), b.ivy (include a) shows. -/
theorem include_graph_filesystem_correct :
    (ivyIncludeGraph_via_filesystem
        [⟨"a.ivy", .ok "include b"⟩, ⟨"b.ivy", .ok "include c"⟩] (some "a.ivy")
      = .forFile "a.ivy" [⟨"b", some "b.ivy"⟩] [] ["b", "c"] 2 [] "filesystem")
    ∧ dictLookup (buildIncludeGraph
        [⟨"a.ivy", .ok "include b"⟩, ⟨"b.ivy", .ok "include c"⟩] [] [] []).2.1 "c" = none
    ∧ (∀ (graph : List (String × List String)) (bm : List (String × String))
        (fuel : Nat) (visited stack : List String), visited.Nodup →
        (transLoopF graph bm fuel visited stack).Nodup)
    ∧ (∀ (graph : List (String × List String)) (bm : List (String × String))
        (visited stack : List String) (fuel : Nat),
        transFuel graph visited stack ≤ fuel →
        transLoopF graph bm fuel visited stack
          = transLoopF graph bm (transFuel graph visited stack) visited stack)
    ∧ (ivyIncludeGraph_via_filesystem
        [⟨"a.ivy", .ok "include b"⟩, ⟨"b.ivy", .ok "include a"⟩] (some "a.ivy")
      = .forFile "a.ivy" [⟨"b", some "b.ivy"⟩] ["b.ivy"] ["a", "b"] 2 [] "filesystem") := by
  refine ⟨by decide, by decide, transLoopF_nodup, ?_, by decide⟩
  intro graph bm visited stack fuel h
  rw [show fuel = transFuel graph visited stack + (fuel - transFuel graph visited stack)
    from by omega]
  exact transLoopF_fuel_ge graph bm visited stack _

/-- Witness for C8: duplicate-freedom and fuel-independence at concrete
arguments. -/
theorem include_graph_filesystem_correct_witness :
    (transLoopF [("b.ivy", ["a"])] [("b", "b.ivy")] 7 [] ["b", "b"]).Nodup
    ∧ transLoopF [("b.ivy", ["a"])] [("b", "b.ivy")]
        (transFuel [("b.ivy", ["a"])] [] ["b", "b"] + 3) [] ["b", "b"]
      = transLoopF [("b.ivy", ["a"])] [("b", "b.ivy")]
        (transFuel [("b.ivy", ["a"])] [] ["b", "b"]) [] ["b", "b"] :=
  ⟨include_graph_filesystem_correct.2.2.1 [("b.ivy", ["a"])] [("b", "b.ivy")] 7 [] ["b", "b"]
      List.nodup_nil,
   include_graph_filesystem_correct.2.2.2.1 [("b.ivy", ["a"])] [("b", "b.ivy")] [] ["b", "b"]
      (transFuel [("b.ivy", ["a"])] [] ["b", "b"] + 3) (by omega)⟩
